import Mathlib

/-!
Verification development for the larnd-sim charge-induction and
front-end-electronics core (`larndsim/detsim.py`, `larndsim/fee.py`).

The Python kernels are shallowly embedded over exact rationals.  Floating
point numbers are idealised as `ℚ`; the transcendental library routines the
kernels call (`math.sqrt`, `math.exp`, `math.erf`, `math.log`) and the
constant `math.pi` are not rational-valued, so they are passed to each
embedded definition as explicit function/value parameters.  Theorems that
need a property of such a routine (for instance that `exp` is nonnegative)
state it as an explicit hypothesis.  Python's `round` (banker's rounding,
ties to even) is embedded exactly as `pyround`.  Configuration constants
that live in the repository's `consts` package (pixel pitch, time sampling,
drift velocity, ...) are parameters of the embedding; constants defined in
the embedded files themselves (`MAX_TRACKS_PER_PIXEL`, `MAX_ADC_VALUES`,
`CLOCK_CYCLE`, ...) are fixed to their source values.
-/

namespace LarndSim

/-- Python's built-in `round` on an exact rational: round half to even. -/
def pyround (x : ℚ) : ℤ :=
  let f := ⌊x⌋
  let r := x - (f : ℚ)
  if r < 1/2 then f
  else if 1/2 < r then f + 1
  else if f % 2 = 0 then f else f + 1

/-- A tabulated response array: a dense 3-D table with its shape, as produced
for `detsim.tracks_current`.  Out-of-range reads never happen through
`get_closest_waveform`, which guards the indices first. -/
structure Response where
  shape0 : ℕ
  shape1 : ℕ
  shape2 : ℕ
  data : ℕ → ℕ → ℕ → ℚ

/-- First bin index computed by `detsim.get_closest_waveform`:
`round((x / bin_width) - 0.5)` with `bin_width = PIXEL_PITCH * MM2CM`. -/
def gcwIndex (binWidth x : ℚ) : ℤ :=
  pyround (x / binWidth - 1/2)

/-- Time bin index computed by `detsim.get_closest_waveform`:
`round(t / dt)` with `dt = RESPONSE_SAMPLING`. -/
def gcwTimeIndex (dt t : ℚ) : ℤ :=
  pyround (t / dt)

/-- Embedding of `detsim.get_closest_waveform` (detsim.py lines 245-270).
`pitch` is `detector.PIXEL_PITCH`, `mm2cm` is `consts.MM2CM`, `dt` is
`detector.RESPONSE_SAMPLING`; the bin width is `pitch * mm2cm` exactly as in
the source.  Returns the tabulated value when all three indices are in
range and `0` otherwise. -/
def get_closest_waveform (pitch mm2cm dt : ℚ) (resp : Response) (x y t : ℚ) : ℚ :=
  let binWidth := pitch * mm2cm
  let i := gcwIndex binWidth x
  let j := gcwIndex binWidth y
  let k := gcwTimeIndex dt t
  if 0 ≤ i ∧ i < (resp.shape0 : ℤ) ∧ 0 ≤ j ∧ j < (resp.shape1 : ℤ) ∧
      0 ≤ k ∧ k < (resp.shape2 : ℤ) then
    resp.data i.toNat j.toNat k.toNat
  else 0

/-- C8: any lookup whose computed bin indices are negative or at/above the
response table's bound in any of the three dimensions returns `0` rather
than erroring.  (The Lean embedding is a total function; the guarded branch
is the only one that reads the table.) -/
theorem get_closest_waveform_out_of_bounds_zero
    (pitch mm2cm dt : ℚ) (resp : Response) (x y t : ℚ)
    (h : gcwIndex (pitch * mm2cm) x < 0 ∨ (resp.shape0 : ℤ) ≤ gcwIndex (pitch * mm2cm) x ∨
         gcwIndex (pitch * mm2cm) y < 0 ∨ (resp.shape1 : ℤ) ≤ gcwIndex (pitch * mm2cm) y ∨
         gcwTimeIndex dt t < 0 ∨ (resp.shape2 : ℤ) ≤ gcwTimeIndex dt t) :
    get_closest_waveform pitch mm2cm dt resp x y t = 0 := by
  unfold get_closest_waveform
  rw [if_neg]
  intro ⟨h1, h2, h3, h4, h5, h6⟩
  rcases h with h' | h' | h' | h' | h' | h' <;> omega

/-- Witness for C8: a concrete out-of-bounds lookup (negative `x` bin) on a
table whose entries are all `7`, evaluating to `0`. -/
theorem get_closest_waveform_out_of_bounds_zero_witness :
    get_closest_waveform 1 1 1 ⟨2, 2, 2, fun _ _ _ => 7⟩ (-3) 0 0 = 0 :=
  get_closest_waveform_out_of_bounds_zero 1 1 1 ⟨2, 2, 2, fun _ _ _ => 7⟩ (-3) 0 0
    (Or.inl (by norm_num [gcwIndex, pyround]))

/-- Core of `detsim.z_interval` (detsim.py lines 72-113) after the endpoints
have been ordered so that `start.1 < end_.1`.  `sq` stands for `math.sqrt`.
Returns the z of the point of closest approach and the z-range of the slice
within `tolerance`, or the `(0, 0, 0)` sentinel when `tolerance ≤ doca`. -/
def z_interval_core (sq : ℚ → ℚ) (start end_ : ℚ × ℚ × ℚ)
    (x_p y_p tolerance : ℚ) : ℚ × ℚ × ℚ :=
  let xs := start.1
  let ys := start.2.1
  let xe := end_.1
  let ye := end_.2.1
  let m := (ye - ys) / (xe - xs)
  let q := (xe * ys - xs * ye) / (xe - xs)
  let a := m
  let b : ℚ := -1
  let c := q
  let x_poca0 := (b * (b * x_p - a * y_p) - a * c) / (a * a + b * b)
  let length := sq ((end_.1 - start.1)^2 + (end_.2.1 - start.2.1)^2 +
    (end_.2.2 - start.2.2)^2)
  let dir3D : ℚ × ℚ × ℚ :=
    ((end_.1 - start.1) / length, (end_.2.1 - start.2.1) / length,
      (end_.2.2 - start.2.2) / length)
  let dp : ℚ × ℚ :=
    if x_poca0 < start.1 then
      (sq ((x_p - start.1)^2 + (y_p - start.2.1)^2), start.1)
    else if x_poca0 > end_.1 then
      (sq ((x_p - end_.1)^2 + (y_p - end_.2.1)^2), end_.1)
    else
      (|a * x_p + b * y_p + c| / sq (a * a + b * b), x_poca0)
  let doca := dp.1
  let x_poca := dp.2
  let z_poca := start.2.2 + (x_poca - start.1) / dir3D.1 * dir3D.2.2
  if tolerance > doca then
    let length2D := sq ((xe - xs)^2 + (ye - ys)^2)
    let dir2D : ℚ × ℚ := ((end_.1 - start.1) / length2D, (end_.2.1 - start.2.1) / length2D)
    let deltaL2D := sq (tolerance^2 - doca^2)
    let x_plusDeltaL := x_poca + deltaL2D * dir2D.1
    let x_minusDeltaL := x_poca - deltaL2D * dir2D.1
    let plusDeltaL := (x_plusDeltaL - start.1) / dir3D.1
    let minusDeltaL := (x_minusDeltaL - start.1) / dir3D.1
    let plusDeltaZ := start.2.2 + dir3D.2.2 * plusDeltaL
    let minusDeltaZ := start.2.2 + dir3D.2.2 * minusDeltaL
    (z_poca, min minusDeltaZ plusDeltaZ, max minusDeltaZ plusDeltaZ)
  else (0, 0, 0)

/-- Embedding of `detsim.z_interval` (detsim.py lines 43-113): orders the
endpoints by `x`, returning the `(0, 0, 0)` sentinel for the degenerate case
where both endpoints share the same `x` coordinate. -/
def z_interval (sq : ℚ → ℚ) (start_point end_point : ℚ × ℚ × ℚ)
    (x_p y_p tolerance : ℚ) : ℚ × ℚ × ℚ :=
  if start_point.1 > end_point.1 then
    z_interval_core sq end_point start_point x_p y_p tolerance
  else if start_point.1 < end_point.1 then
    z_interval_core sq start_point end_point x_p y_p tolerance
  else (0, 0, 0)

/-- Generic shape of the `z_interval_core` result: either a triple whose
last two components are a `min`/`max` pair, or the `(0,0,0)` sentinel.  In
both cases the second component is at most the third. -/
lemma ite_minmax_ordered (c : Prop) [Decidable c] (z a b : ℚ) :
    (if c then (z, min a b, max a b) else ((0:ℚ), (0:ℚ), (0:ℚ))).2.1 ≤
      (if c then (z, min a b, max a b) else ((0:ℚ), (0:ℚ), (0:ℚ))).2.2 := by
  split
  · exact min_le_max
  · exact le_refl 0

/-- The slice bounds of `z_interval_core` are ordered: the non-sentinel
branch returns `min`/`max` of the two tolerance-range z coordinates. -/
lemma z_interval_core_bounds_ordered (sq : ℚ → ℚ) (start end_ : ℚ × ℚ × ℚ)
    (x_p y_p tolerance : ℚ) :
    (z_interval_core sq start end_ x_p y_p tolerance).2.1 ≤
      (z_interval_core sq start end_ x_p y_p tolerance).2.2 := by
  unfold z_interval_core
  dsimp only
  exact ite_minmax_ordered _ _ _ _

/-- C10: the slice bounds returned by `z_interval` are always ordered
(second returned component ≤ third).  This holds unconditionally — in the
non-sentinel branch the source explicitly returns
`(z_poca, min(..), max(..))`, and the sentinel is `(0, 0, 0)` — so in
particular it holds whenever the result is non-sentinel (tolerance strictly
above the distance of closest approach and endpoints differing in `x`). -/
theorem z_interval_bounds_ordered (sq : ℚ → ℚ) (start_point end_point : ℚ × ℚ × ℚ)
    (x_p y_p tolerance : ℚ) :
    (z_interval sq start_point end_point x_p y_p tolerance).2.1 ≤
      (z_interval sq start_point end_point x_p y_p tolerance).2.2 := by
  unfold z_interval
  split_ifs
  · exact z_interval_core_bounds_ordered sq end_point start_point x_p y_p tolerance
  · exact z_interval_core_bounds_ordered sq start_point end_point x_p y_p tolerance
  · exact le_refl 0

/-- Embedding of the impact factor computed by `detsim.tracks_current`
(detsim.py lines 316-317): the source multiplies the `max` of
`sqrt((5·σ₀)² + (5·σ₁)²)` and the half-diagonal of the pixel pad by 2. -/
def impact_factor (sq : ℚ → ℚ) (sigma0 sigma1 pitch : ℚ) : ℚ :=
  max (sq ((5 * sigma0)^2 + (5 * sigma1)^2)) (sq (pitch^2 + pitch^2) / 2) * 2

/-- The impact factor as the specification words it:
`max(half-diagonal of pixel pad, 2×sqrt((5·σ_transverse)²×2))`.  Kept for
comparison with the source's `impact_factor`. -/
def impact_factor_spec (sq : ℚ → ℚ) (sigma pitch : ℚ) : ℚ :=
  max (sq (pitch^2 + pitch^2) / 2) (2 * sq ((5 * sigma)^2 * 2))

/-- Square-root surrogate for the C4 counterexample: exact on the two
arguments that appear there (`0` and `50`, with `sqrt 50 ≈ 7071/1000`). -/
def sqrtC4 (x : ℚ) : ℚ :=
  if x = 50 then 7071/1000 else 0

/-- C4 counterexample: at `σ_transverse = 0`, `pitch = 5` the code's impact
factor is the full pixel diagonal (`2 × half-diagonal`), while the claimed
formula gives only the half-diagonal: the source multiplies the whole `max`
by 2, not just the diffusion term.  Any square-root function with
`sqrt 0 = 0` and `sqrt 50 ≠ 0` separates the two formulas. -/
theorem impact_factor_spec_cex :
    impact_factor sqrtC4 0 0 5 ≠ impact_factor_spec sqrtC4 0 5 := by
  norm_num [impact_factor, impact_factor_spec, sqrtC4]

/-- C4 amended: with both transverse sigmas equal (as in `tracks_current`,
where both entries are the segment's `tran_diff`), the impact factor equals
`max(full diagonal of the pixel pad, 2×sqrt((5·σ_transverse)²×2))` — the
factor 2 multiplies the half-diagonal as well. -/
theorem impact_factor_doubled_max (sq : ℚ → ℚ) (sigma pitch : ℚ) :
    impact_factor sq sigma sigma pitch =
      max (sq (pitch^2 + pitch^2)) (2 * sq ((5 * sigma)^2 * 2)) := by
  unfold impact_factor
  have harg : (5 * sigma)^2 + (5 * sigma)^2 = (5 * sigma)^2 * 2 := by ring
  rw [harg, max_mul_of_nonneg _ _ (by norm_num : (0:ℚ) ≤ 2)]
  rw [div_mul_cancel₀ _ (by norm_num : (2:ℚ) ≠ 0), mul_comm (sq ((5 * sigma)^2 * 2)) 2,
    max_comm]

/-- Segment length `Deltar = sqrt(Δx² + Δy² + Δz²)` used by `detsim.rho`. -/
def rho_Deltar (sq : ℚ → ℚ) (segment : ℚ × ℚ × ℚ) : ℚ :=
  sq (segment.1^2 + segment.2.1^2 + segment.2.2^2)

/-- Quadratic-form coefficient `a` of `detsim.rho` (detsim.py lines 139-141). -/
def rho_a (sq : ℚ → ℚ) (sigmas segment : ℚ × ℚ × ℚ) : ℚ :=
  let Deltar := rho_Deltar sq segment
  (segment.1 / Deltar) * (segment.1 / Deltar) / (2 * sigmas.1 * sigmas.1) +
    (segment.2.1 / Deltar) * (segment.2.1 / Deltar) / (2 * sigmas.2.1 * sigmas.2.1) +
    (segment.2.2 / Deltar) * (segment.2.2 / Deltar) / (2 * sigmas.2.2 * sigmas.2.2)

/-- Closed-form prefactor of `detsim.rho` (detsim.py line 142):
`q / Deltar / (σ₀σ₁σ₂·sqrt(8π³))`.  `piq` stands for `math.pi`. -/
def rho_factor (sq : ℚ → ℚ) (piq : ℚ) (q : ℚ) (sigmas segment : ℚ × ℚ × ℚ) : ℚ :=
  q / rho_Deltar sq segment /
    (sigmas.1 * sigmas.2.1 * sigmas.2.2 * sq (8 * piq * piq * piq))

/-- Embedding of the helper `detsim._b` (detsim.py lines 115-119). -/
def rho_b (point start sigmas segment : ℚ × ℚ × ℚ) (Deltar : ℚ) : ℚ :=
  -((point.1 - start.1) / (sigmas.1 * sigmas.1) * (segment.1 / Deltar) +
    (point.2.1 - start.2.1) / (sigmas.2.1 * sigmas.2.1) * (segment.2.1 / Deltar) +
    (point.2.2 - start.2.2) / (sigmas.2.2 * sigmas.2.2) * (segment.2.2 / Deltar))

/-- Gaussian exponent `delta` of `detsim.rho` (detsim.py lines 147-149). -/
def rho_delta (point start sigmas : ℚ × ℚ × ℚ) : ℚ :=
  (point.1 - start.1) * (point.1 - start.1) / (2 * sigmas.1 * sigmas.1) +
    (point.2.1 - start.2.1) * (point.2.1 - start.2.1) / (2 * sigmas.2.1 * sigmas.2.1) +
    (point.2.2 - start.2.2) * (point.2.2 - start.2.2) / (2 * sigmas.2.2 * sigmas.2.2)

/-- Error-function integral of `detsim.rho` (detsim.py lines 151-153):
`sqrt(π)·(−erf(b/(2√a)) + erf((b + 2aΔr)/(2√a)))/(2√a)`. -/
def rho_integral (sq erfq : ℚ → ℚ) (piq : ℚ)
    (point start sigmas segment : ℚ × ℚ × ℚ) : ℚ :=
  let Deltar := rho_Deltar sq segment
  let a := rho_a sq sigmas segment
  let sqrt_a_2 := 2 * sq a
  let b := rho_b point start sigmas segment Deltar
  sq piq * (-(erfq (b / sqrt_a_2)) + erfq ((b + 2 * a * Deltar) / sqrt_a_2)) / sqrt_a_2

/-- Embedding of `detsim.rho` (detsim.py lines 121-160).  The Python guard
`if factor and integral:` (float truthiness) computes the exponential only
when both the prefactor and the error-function integral are nonzero, and
returns `expo = 0` otherwise — underflowed factors yield exactly zero. -/
def rho (sq expq erfq logq : ℚ → ℚ) (piq : ℚ)
    (point : ℚ × ℚ × ℚ) (q : ℚ) (start sigmas segment : ℚ × ℚ × ℚ) : ℚ :=
  let Deltar := rho_Deltar sq segment
  let a := rho_a sq sigmas segment
  let factor := rho_factor sq piq q sigmas segment
  let b := rho_b point start sigmas segment Deltar
  let delta := rho_delta point start sigmas
  let integral := rho_integral sq erfq piq point start sigmas segment
  if factor ≠ 0 ∧ integral ≠ 0 then
    expq (b * b / (4 * a) - delta + logq factor + logq integral)
  else 0

/-- C9: for every evaluation point, positive charge, positive diffusion
sigmas and segment of positive length, `rho` returns a non-negative value
(given that the embedded `exp` routine is non-negative, as the real
exponential is), and whenever the prefactor or the error-function integral
is zero (the underflow case), `rho` returns exactly `0` instead of
propagating NaN/Inf — in the exact embedding the non-underflow branch is an
exponential and the underflow branch is the constant `0`. -/
theorem rho_nonneg_and_underflow_zero (sq expq erfq logq : ℚ → ℚ) (piq : ℚ)
    (point : ℚ × ℚ × ℚ) (q : ℚ) (start sigmas segment : ℚ × ℚ × ℚ)
    (hexp : ∀ x, 0 ≤ expq x) (hq : 0 < q)
    (hs0 : 0 < sigmas.1) (hs1 : 0 < sigmas.2.1) (hs2 : 0 < sigmas.2.2)
    (hlen : 0 < segment.1^2 + segment.2.1^2 + segment.2.2^2) :
    0 ≤ rho sq expq erfq logq piq point q start sigmas segment ∧
      ((rho_factor sq piq q sigmas segment = 0 ∨
          rho_integral sq erfq piq point start sigmas segment = 0) →
        rho sq expq erfq logq piq point q start sigmas segment = 0) := by
  constructor
  · unfold rho
    dsimp only
    split
    · exact hexp _
    · exact le_refl 0
  · intro h
    unfold rho
    dsimp only
    rw [if_neg]
    rcases h with h | h <;> simp [h]

/-- Witness for C9 at a concrete input: with the square root stubbed to the
zero function the segment length `Deltar` is `0`, so the prefactor is a
division by zero — exactly `0` in the exact model, mirroring float
underflow — and `rho` evaluates to `0`; non-negativity holds as well. -/
theorem rho_nonneg_and_underflow_zero_witness :
    0 ≤ rho (fun _ => 0) (fun _ => 1) (fun _ => 0) (fun _ => 0) 3
        (0, 0, 0) 1 (0, 0, 0) (1, 1, 1) (1, 0, 0) ∧
      rho (fun _ => 0) (fun _ => 1) (fun _ => 0) (fun _ => 0) 3
        (0, 0, 0) 1 (0, 0, 0) (1, 1, 1) (1, 0, 0) = 0 := by
  have h := rho_nonneg_and_underflow_zero (fun _ => 0) (fun _ => 1) (fun _ => 0)
    (fun _ => 0) 3 (0, 0, 0) 1 (0, 0, 0) (1, 1, 1) (1, 0, 0)
    (fun x => by norm_num) (by norm_num) (by norm_num) (by norm_num) (by norm_num)
    (by norm_num)
  refine ⟨h.1, h.2 (Or.inl ?_)⟩
  norm_num [rho_factor, rho_Deltar]

/-- Embedding of `detsim.sign` (detsim.py lines 375-386): `1` if `x ≥ 0`
else `-1`. -/
def signq (x : ℚ) : ℚ :=
  if 0 ≤ x then 1 else -1

/-- Embedding of `detsim.track_point` (detsim.py lines 213-230): the `(x,y)`
coordinates of the segment point with drift coordinate `z`. -/
def track_point (start direction : ℚ × ℚ × ℚ) (z : ℚ) : ℚ × ℚ :=
  let l := (z - start.2.2) / direction.2.2
  (start.1 + l * direction.1, start.2.1 + l * direction.2.1)

/-- One coordinate of `detsim.get_pixel_coordinates` (detsim.py lines
232-243): pixel index times pitch plus the TPC border offset.  The
decomposition of the pixel id into indices (`id2pixel`) lives outside the
embedded files, so the indices and border offsets are inputs here. -/
def pixel_center (pitch : ℚ) (i : ℤ) (border : ℚ) : ℚ :=
  (i : ℚ) * pitch + border

/-- Orientation of a segment by drift coordinate, as done at the top of
`detsim.tracks_current` (detsim.py lines 301-306): the endpoint with the
smaller `z` becomes the start. -/
def zorder (xs ys zs xe ye ze : ℚ) : (ℚ × ℚ × ℚ) × (ℚ × ℚ × ℚ) :=
  if zs < ze then ((xs, ys, zs), (xe, ye, ze))
  else ((xe, ye, ze), (xs, ys, zs))

/-- Clipped, grid-aligned start time of a segment, as computed both by
`detsim.time_intervals` (detsim.py line 38) and inside
`detsim.tracks_current` (detsim.py line 336):
`max(TIME_INTERVAL[0], round((t_start − TIME_PADDING)/TIME_SAMPLING)·TIME_SAMPLING)`. -/
def clipped_start_time (ti0 ts pad t_start : ℚ) : ℚ :=
  max ti0 ((pyround ((t_start - pad) / ts) : ℚ) * ts)

/-- The space-time integration loops of `detsim.tracks_current` (detsim.py
lines 321-373), run for one (segment, pixel, output-tick) triple after a
non-sentinel `z_interval` result.  Arguments: math routines `sq`/`expq`/
`erfq`/`logq`/`piq`; geometry and timing constants (`pitch`, `mm2cm`,
`respDt`, `ts` = TIME_SAMPLING, `pad` = TIME_PADDING, `ti0` =
TIME_INTERVAL[0], `vdrift`, `twindow` = TIME_WINDOW, `echarge` =
E_CHARGE, `npts` = SAMPLED_POINTS, `borderZ` = TPC_BORDERS[plane][2][0]);
the response table; the oriented segment data; the slice `[z_start, z_end]`
from `z_interval`; the pixel center; the segment's raw start time; and the
output tick index `it`.  The source assigns the running total to
`signals[itrk,ipix,it]` after each admissible x-column, so the final stored
value is the full triple sum with the source's `continue` guards as `if`
filters. -/
def tracks_current_inner (sq expq erfq logq : ℚ → ℚ) (piq : ℚ)
    (pitch mm2cm respDt ts pad ti0 vdrift twindow echarge : ℚ) (npts : ℕ)
    (resp : Response) (start : ℚ × ℚ × ℚ) (direction : ℚ × ℚ × ℚ)
    (sigmas segment : ℚ × ℚ × ℚ) (nElectrons : ℚ)
    (z_start z_end : ℚ) (x_p y_p : ℚ) (t_start_raw : ℚ) (it : ℕ)
    (borderZ : ℚ) : ℚ :=
  let z_start_int := z_start - 4 * sigmas.2.2
  let z_end_int := z_end + 4 * sigmas.2.2
  let xy_start := track_point start direction z_start
  let xy_end := track_point start direction z_end
  let y_step := (|xy_end.2 - xy_start.2| + 8 * sigmas.2.1) / ((npts : ℚ) - 1)
  let x_step := (|xy_end.1 - xy_start.1| + 8 * sigmas.1) / ((npts : ℚ) - 1)
  let z_sampling := ts / 2
  let z_steps := max npts (Int.ceil (|z_end_int - z_start_int| / z_sampling)).toNat
  let z_step := (z_end_int - z_start_int) / ((z_steps : ℚ) - 1)
  let t_start := clipped_start_time ti0 ts pad t_start_raw
  let time_tick := t_start + (it : ℚ) * ts
  ∑ iz ∈ Finset.range z_steps,
    (let z := z_start_int + (iz : ℚ) * z_step
    let t0 := |z - borderZ| / vdrift - twindow
    if t0 < time_tick ∧ time_tick < t0 + twindow then
      ∑ ix ∈ Finset.range npts,
        (let x := xy_start.1 + signq direction.1 * ((ix : ℚ) * x_step - 4 * sigmas.1)
        let x_dist := |x_p - x|
        if x_dist ≤ pitch / 2 + pitch / 4 then
          ∑ iy ∈ Finset.range npts,
            (let y := xy_start.2 + signq direction.2.1 * ((iy : ℚ) * y_step - 4 * sigmas.2.1)
            let y_dist := |y_p - y|
            if y_dist ≤ pitch / 2 + pitch / 4 then
              let charge := rho sq expq erfq logq piq (x, y, z) nElectrons start sigmas segment *
                |x_step| * |y_step| * |z_step|
              get_closest_waveform pitch mm2cm respDt resp x_dist y_dist (time_tick - t0) *
                charge * echarge
            else 0)
        else 0)
    else 0)

/-- Embedding of the per-(segment, pixel, tick) computation of the CUDA
kernel `detsim.tracks_current` (detsim.py lines 272-373).  The pixel id has
already been decomposed into `(pID_x, pID_y)` (the external `id2pixel`);
`border_x`, `border_y`, `borderZ` are the relevant `TPC_BORDERS` entries.
Returns the value stored into `signals[itrk, ipix, it]`; the array is
zero-initialised, so a skipped guard leaves the value `0`. -/
def tracks_current_signal (sq expq erfq logq : ℚ → ℚ) (piq : ℚ)
    (pitch mm2cm respDt ts pad ti0 vdrift twindow echarge : ℚ) (npts : ℕ)
    (resp : Response) (pID_x pID_y : ℤ) (border_x border_y borderZ : ℚ)
    (xs ys zs xe ye ze tranDiff longDiff nElectrons t_start_raw : ℚ)
    (it : ℕ) : ℚ :=
  if 0 ≤ pID_x ∧ 0 ≤ pID_y then
    let x_p := pixel_center pitch pID_x border_x + pitch / 2
    let y_p := pixel_center pitch pID_y border_y + pitch / 2
    let se := zorder xs ys zs xe ye ze
    let start := se.1
    let end_ := se.2
    let segment : ℚ × ℚ × ℚ :=
      (end_.1 - start.1, end_.2.1 - start.2.1, end_.2.2 - start.2.2)
    let length := sq (segment.1^2 + segment.2.1^2 + segment.2.2^2)
    let direction : ℚ × ℚ × ℚ := (segment.1 / length, segment.2.1 / length, segment.2.2 / length)
    let sigmas : ℚ × ℚ × ℚ := (tranDiff, tranDiff, longDiff)
    let zi := z_interval sq start end_ x_p y_p (impact_factor sq tranDiff tranDiff pitch)
    if zi.1 ≠ 0 then
      tracks_current_inner sq expq erfq logq piq pitch mm2cm respDt ts pad ti0
        vdrift twindow echarge npts resp start direction sigmas segment nElectrons
        zi.2.1 zi.2.2 x_p y_p t_start_raw it borderZ
    else 0
  else 0

/-- C6: whenever `z_interval` reports no overlap — it returns the
`(0, 0, 0)` sentinel, which is exactly what happens when the distance of
closest approach exceeds the impact tolerance or when the (z-ordered)
endpoints share the same `x` coordinate — `tracks_current` stores `0` for
that (segment, pixel) pair at every time tick, and no exception can arise
(the embedding is a total function, mirroring the source where the skipped
branch performs no computation at all). -/
theorem tracks_current_zero_of_no_overlap (sq expq erfq logq : ℚ → ℚ) (piq : ℚ)
    (pitch mm2cm respDt ts pad ti0 vdrift twindow echarge : ℚ) (npts : ℕ)
    (resp : Response) (pID_x pID_y : ℤ) (border_x border_y borderZ : ℚ)
    (xs ys zs xe ye ze tranDiff longDiff nElectrons t_start_raw : ℚ) (it : ℕ)
    (h : z_interval sq (zorder xs ys zs xe ye ze).1 (zorder xs ys zs xe ye ze).2
        (pixel_center pitch pID_x border_x + pitch / 2)
        (pixel_center pitch pID_y border_y + pitch / 2)
        (impact_factor sq tranDiff tranDiff pitch) = (0, 0, 0)) :
    tracks_current_signal sq expq erfq logq piq pitch mm2cm respDt ts pad ti0
      vdrift twindow echarge npts resp pID_x pID_y border_x border_y borderZ
      xs ys zs xe ye ze tranDiff longDiff nElectrons t_start_raw it = 0 := by
  unfold tracks_current_signal
  dsimp only
  rw [h]
  simp

/-- Witness for C6: a concrete vertical segment (both endpoints at
`x = 0`), for which `z_interval` returns the no-overlap sentinel, yields a
zero signal. -/
theorem tracks_current_zero_of_no_overlap_witness :
    tracks_current_signal (fun x => x) (fun x => x) (fun x => x) (fun x => x) 3
      1 1 1 1 1 0 1 1 1 2 ⟨1, 1, 1, fun _ _ _ => 1⟩ 0 0 0 0 0
      0 0 0 0 1 1 (1/10) (1/10) 1000 5 0 = 0 := by
  apply tracks_current_zero_of_no_overlap
  norm_num [z_interval, zorder, pixel_center]

/-- Rounding to the nearest multiple of the sampling period `ts`, as done by
`detsim.time_intervals`: `round(x / ts) * ts`. -/
def round_to_period (ts x : ℚ) : ℚ :=
  (pyround (x / ts) : ℚ) * ts

/-- Per-segment computation of the CUDA kernel `detsim.time_intervals`
(detsim.py lines 19-41): the stored start time and the segment's tick count
contributed to the `time_max` reduction.  Note the source pads the end time
with the literal `1`, not with `TIME_PADDING`, and applies the rounding
before the (one-sided) clipping:
`t_end = min(TI[1], round((te + 1)/TS)·TS)`,
`t_start = max(TI[0], round((ts − TIME_PADDING)/TS)·TS)`. -/
def time_intervals_track (ti0 ti1 ts pad t_start t_end : ℚ) : ℚ × ℤ :=
  let tEnd := min ti1 (round_to_period ts (t_end + 1))
  let tStart := max ti0 (round_to_period ts (t_start - pad))
  (tStart, Int.ceil ((tEnd - tStart) / ts))

/-- The per-segment computation as the specification claims it: clip
`t_start − padding` and `t_end + padding` to the valid interval
`[ti0, ti1]`, then round both bounds to the nearest multiple of the
sampling period (`pads`/`pade` are the paddings applied to the start/end;
the claim takes both equal to `TIME_PADDING`). -/
def time_intervals_claim (ti0 ti1 ts pads pade t_start t_end : ℚ) : ℚ × ℤ :=
  let clip := fun x => max ti0 (min ti1 x)
  let tStart := round_to_period ts (clip (t_start - pads))
  let tEnd := round_to_period ts (clip (t_end + pade))
  (tStart, Int.ceil ((tEnd - tStart) / ts))

/-- The `time_max` reduction of `detsim.time_intervals` (detsim.py line 41):
`cuda.atomic.max` over all segments' tick counts, starting from the
zero-initialised output buffer. -/
def time_max_reduce (counts : List ℤ) : ℤ :=
  counts.foldl max 0

/-- C5 counterexample: with interval `[0, 100]`, sampling period `1` and
padding `2`, a segment with `t_start = 10`, `t_end = 20` gets the code's
end bound `round(20 + 1) = 21` (13 ticks), while the claimed
clip-then-round with the same padding on both sides gives `round(20 + 2) =
22` (14 ticks): the source pads the end with the literal `1`, not with the
padding. -/
theorem time_intervals_padding_cex :
    time_intervals_track 0 100 1 2 10 20 ≠ time_intervals_claim 0 100 1 2 2 10 20 := by
  norm_num [time_intervals_track, time_intervals_claim, round_to_period, pyround]

/-- C5 amended: `time_intervals` pads the end time with the literal `1`
(not the configured padding), and rounds before the one-sided clipping;
whenever no clipping is active — the padded bounds and their rounded values
lie inside the valid interval — this coincides with the claimed
clip-then-round description with end padding `1`, and the `time_max`
reduction is the commutative-associative `max` fold, invariant under any
reordering of the segments. -/
theorem time_intervals_amended (ti0 ti1 ts pad t_start t_end : ℚ)
    (counts counts' : List ℤ)
    (hs1 : ti0 ≤ t_start - pad) (hs2 : t_start - pad ≤ ti1)
    (he1 : ti0 ≤ t_end + 1) (he2 : t_end + 1 ≤ ti1)
    (hr1 : ti0 ≤ round_to_period ts (t_start - pad))
    (hr2 : round_to_period ts (t_end + 1) ≤ ti1)
    (hperm : counts.Perm counts') :
    time_intervals_track ti0 ti1 ts pad t_start t_end =
        time_intervals_claim ti0 ti1 ts pad 1 t_start t_end ∧
      time_max_reduce counts = time_max_reduce counts' := by
  constructor
  · unfold time_intervals_track time_intervals_claim
    dsimp only
    rw [min_eq_right hr2, max_eq_right hr1, min_eq_right hs2, max_eq_right hs1,
      min_eq_right he2, max_eq_right he1]
  · exact hperm.foldl_eq' (fun x _hx y _hy z => Max.right_comm z x y) 0

/-- Witness for C5 at a concrete input with all clipping inactive and a
two-element reduction reordered. -/
theorem time_intervals_amended_witness :
    time_intervals_track 0 100 1 2 10 20 =
        time_intervals_claim 0 100 1 2 1 10 20 ∧
      time_max_reduce [3, 5] = time_max_reduce [5, 3] := by
  apply time_intervals_amended 0 100 1 2 10 20 [3, 5] [5, 3]
  · norm_num
  · norm_num
  · norm_num
  · norm_num
  · norm_num [round_to_period, pyround]
  · norm_num [round_to_period, pyround]
  · decide

/-- Source constant `detsim.MAX_TRACKS_PER_PIXEL` (detsim.py line 17). -/
def MAX_TRACKS_PER_PIXEL : ℕ := 5

/-- Start tick of a track, as computed by `detsim.sum_pixel_signals`
(detsim.py line 414): `round(track_starts[itrk] / TIME_SAMPLING)`. -/
def start_tick (ts t : ℚ) : ℕ :=
  (pyround (t / ts)).toNat

/-- Slot scan of `detsim.sum_pixel_signals` (detsim.py lines 417-423):
`counter` starts at `0`, the row of the track-pixel map is scanned for the
first entry equal to `itrk`, and the scan `break`s there; when the track is
absent from the row, `counter` stays `0`.  The source's `if itrk == -1:
continue` guard (dead for a non-negative thread index) is kept verbatim. -/
def slotOf (row : ℕ → ℤ) (itrk : ℕ) : ℕ :=
  if (itrk : ℤ) = -1 then 0
  else
    match (List.range MAX_TRACKS_PER_PIXEL).find? (fun i => row i == (itrk : ℤ)) with
    | some i => i
    | none => 0

/-- The slot index is always within the row capacity. -/
lemma slotOf_lt_max (row : ℕ → ℤ) (itrk : ℕ) :
    slotOf row itrk < MAX_TRACKS_PER_PIXEL := by
  unfold slotOf
  split
  · norm_num [MAX_TRACKS_PER_PIXEL]
  · split
    · next i heq =>
      exact List.mem_range.mp (List.mem_of_find?_eq_some heq)
    · norm_num [MAX_TRACKS_PER_PIXEL]

/-- Total accumulated signal of `detsim.sum_pixel_signals` (detsim.py line
427): the final content of `pixels_signals[p][t]` after every thread's
atomic add — the sum of `signals[itrk][ipix][itick]` over all triples whose
pixel index is `p` and whose absolute tick `start_tick + itick` is `t`.
The buffers start zeroed and rational addition is exact, so the atomic
reduction is modelled by the plain sum. -/
def pixels_signals (S P T : ℕ) (signals : ℕ → ℕ → ℕ → ℚ) (pim : ℕ → ℕ → ℤ)
    (track_starts : ℕ → ℚ) (ts : ℚ) (p t : ℕ) : ℚ :=
  ∑ itrk ∈ Finset.range S, ∑ ipix ∈ Finset.range P, ∑ itick ∈ Finset.range T,
    if pim itrk ipix = (p : ℤ) ∧ start_tick ts (track_starts itrk) + itick = t then
      signals itrk ipix itick
    else 0

/-- Per-track-slot accumulated signal of `detsim.sum_pixel_signals`
(detsim.py line 428): the final content of `pixels_tracks_signals[p][t][c]`,
restricting the same sum to triples whose slot scan lands on `c`. -/
def pixels_tracks_signals (S P T : ℕ) (signals : ℕ → ℕ → ℕ → ℚ)
    (pim : ℕ → ℕ → ℤ) (track_starts : ℕ → ℚ) (ts : ℚ) (tpm : ℕ → ℕ → ℤ)
    (p t c : ℕ) : ℚ :=
  ∑ itrk ∈ Finset.range S, ∑ ipix ∈ Finset.range P, ∑ itick ∈ Finset.range T,
    if (pim itrk ipix = (p : ℤ) ∧ start_tick ts (track_starts itrk) + itick = t) ∧
        slotOf (tpm p) itrk = c then
      signals itrk ipix itick
    else 0

/-- Summing an indicator over the slot range hits exactly the one slot the
scan selects. -/
lemma sum_ite_slot (A : Prop) [Decidable A] (s : ℕ) (hs : s < MAX_TRACKS_PER_PIXEL)
    (v : ℚ) :
    ∑ c ∈ Finset.range MAX_TRACKS_PER_PIXEL, (if A ∧ s = c then v else 0) =
      if A then v else 0 := by
  by_cases hA : A
  · simp only [hA, true_and]
    rw [Finset.sum_ite_eq (Finset.range MAX_TRACKS_PER_PIXEL) s (fun _ => v)]
    simp [Finset.mem_range.mpr hs]
  · simp [hA]

/-- Every contribution a thread adds to `pixels_signals` is also added to
`pixels_tracks_signals` at the slot the scan selects (the scan always lands
inside the row, defaulting to slot `0`), so the slot sums reproduce the
total for every pixel and tick — no capacity hypothesis needed. -/
lemma sum_slots_eq_total (S P T : ℕ) (signals : ℕ → ℕ → ℕ → ℚ)
    (pim : ℕ → ℕ → ℤ) (track_starts : ℕ → ℚ) (ts : ℚ) (tpm : ℕ → ℕ → ℤ)
    (p t : ℕ) :
    ∑ c ∈ Finset.range MAX_TRACKS_PER_PIXEL,
        pixels_tracks_signals S P T signals pim track_starts ts tpm p t c =
      pixels_signals S P T signals pim track_starts ts p t := by
  unfold pixels_tracks_signals pixels_signals
  rw [Finset.sum_comm]
  refine Finset.sum_congr rfl (fun itrk _ => ?_)
  rw [Finset.sum_comm]
  refine Finset.sum_congr rfl (fun ipix _ => ?_)
  rw [Finset.sum_comm]
  refine Finset.sum_congr rfl (fun itick _ => ?_)
  exact sum_ite_slot _ _ (slotOf_lt_max _ _) _

/-- C1: for every pixel index and absolute tick, once `sum_pixel_signals`
has accumulated every (segment, pixel, tick) contribution, the sum over
track slots of `pixels_tracks_signals[p][t][·]` equals
`pixels_signals[p][t]` (exactly, in the rational model), provided the
number of distinct tracks touching the pixel is at most
`MAX_TRACKS_PER_PIXEL`. -/
theorem sum_pixel_signals_per_track_total (S P T : ℕ)
    (signals : ℕ → ℕ → ℕ → ℚ) (pim : ℕ → ℕ → ℤ) (track_starts : ℕ → ℚ)
    (ts : ℚ) (tpm : ℕ → ℕ → ℤ) (p t : ℕ)
    (hcap : ((Finset.range S).filter (fun itrk =>
        ((Finset.range P).filter (fun ipix => pim itrk ipix = (p : ℤ))).Nonempty)).card ≤
      MAX_TRACKS_PER_PIXEL) :
    ∑ c ∈ Finset.range MAX_TRACKS_PER_PIXEL,
        pixels_tracks_signals S P T signals pim track_starts ts tpm p t c =
      pixels_signals S P T signals pim track_starts ts p t :=
  sum_slots_eq_total S P T signals pim track_starts ts tpm p t

/-- Witness for C1: a single track, pixel and tick (one touching track,
within capacity). -/
theorem sum_pixel_signals_per_track_total_witness :
    ((Finset.range 1).filter (fun itrk =>
        ((Finset.range 1).filter (fun ipix =>
          (fun (_ _ : ℕ) => (0 : ℤ)) itrk ipix = ((0 : ℕ) : ℤ))).Nonempty)).card ≤
      MAX_TRACKS_PER_PIXEL ∧
    ∑ c ∈ Finset.range MAX_TRACKS_PER_PIXEL,
        pixels_tracks_signals 1 1 1 (fun _ _ _ => 1) (fun _ _ => 0) (fun _ => 0) 1
          (fun _ _ => 0) 0 0 c =
      pixels_signals 1 1 1 (fun _ _ _ => 1) (fun _ _ => 0) (fun _ => 0) 1 0 0 :=
  ⟨by decide, sum_pixel_signals_per_track_total 1 1 1 (fun _ _ _ => 1)
    (fun _ _ => 0) (fun _ => 0) 1 (fun _ _ => 0) 0 0 (by decide)⟩

/-- Bounded linear probe of `detsim.get_track_pixel_map` (detsim.py lines
455-460): advance past entries that are neither `-1` nor the track index,
and write the track index there if a free (or matching) slot was found
within the row; otherwise leave the row unchanged. -/
def insert_track (row : List ℤ) (itrk : ℕ) : List ℤ :=
  match row.findIdx? (fun v => v == -1 || v == (itrk : ℤ)) with
  | some i => row.set i (itrk : ℤ)
  | none => row

/-- Embedding of the CUDA kernel `detsim.get_track_pixel_map` (detsim.py
lines 430-461) for one unique pixel `upix`: scan all (track, pixel-slot)
pairs and probe the row for each track touching the pixel.  The row is
allocated with `MAX_TRACKS_PER_PIXEL` entries initialised to `-1` by the
caller. -/
def get_track_pixel_map_row (upix : ℤ) (S P : ℕ) (pixels : ℕ → ℕ → ℤ) : List ℤ :=
  (List.range S).foldl
    (fun row itrk =>
      (List.range P).foldl
        (fun row2 ipix => if pixels itrk ipix = upix then insert_track row2 itrk else row2)
        row)
    (List.replicate MAX_TRACKS_PER_PIXEL (-1))

/-- Concrete pixel table for the C7 counterexample: six tracks, one pixel
slot each, all touching pixel `0`. -/
def pixelsC7 : ℕ → ℕ → ℤ := fun _ _ => 0

/-- Track-pixel map produced for the C7 counterexample scenario. -/
def tpmC7 : ℕ → ℕ → ℤ := fun _ i => (get_track_pixel_map_row 0 6 1 pixelsC7).getD i (-1)

/-- C7 counterexample: six tracks (indices 0-5, each contributing signal 1)
touch pixel 0, one more than the capacity 5.  The map keeps tracks 0-4 and
drops track 5; but in `sum_pixel_signals` the slot scan for track 5 finds
no match and leaves `counter = 0`, so track 5's contribution is added to
slot 0: the slot-0 accumulator holds `2` (tracks 0 and 5), not the `1` the
claim requires — the excess contribution is misattributed to slot 0, not
dropped, and the in-capacity slot 0 is affected. -/
theorem excess_track_slot_zero_cex :
    get_track_pixel_map_row 0 6 1 pixelsC7 = [0, 1, 2, 3, 4] ∧
      slotOf (tpmC7 0) 5 = 0 ∧
      pixels_tracks_signals 6 1 1 (fun _ _ _ => 1) (fun _ _ => 0) (fun _ => 0) 1
          tpmC7 0 0 0 = 2 ∧
      (2 : ℚ) ≠ 1 := by
  have h0 : slotOf (tpmC7 0) 0 = 0 := by decide
  have h1 : slotOf (tpmC7 0) 1 = 1 := by decide
  have h2 : slotOf (tpmC7 0) 2 = 2 := by decide
  have h3 : slotOf (tpmC7 0) 3 = 3 := by decide
  have h4 : slotOf (tpmC7 0) 4 = 4 := by decide
  have h5 : slotOf (tpmC7 0) 5 = 0 := by decide
  have hst : start_tick 1 0 = 0 := by norm_num [start_tick, pyround]
  refine ⟨by decide, h5, ?_, by norm_num⟩
  simp only [pixels_tracks_signals, Finset.sum_range_succ, Finset.sum_range_zero,
    h0, h1, h2, h3, h4, h5, hst]
  norm_num

/-- Length preservation for the inner probe. -/
lemma insert_track_length (row : List ℤ) (itrk : ℕ) :
    (insert_track row itrk).length = row.length := by
  unfold insert_track
  split
  · exact List.length_set row _ _
  · rfl

/-- A fold whose step preserves list length preserves list length. -/
lemma foldl_length_invariant {α : Type} (f : List ℤ → α → List ℤ)
    (h : ∀ r a, (f r a).length = r.length) :
    ∀ (l : List α) (r : List ℤ), (l.foldl f r).length = r.length := by
  intro l
  induction l with
  | nil => intro r; rfl
  | cons a l ih =>
    intro r
    rw [List.foldl_cons, ih (f r a), h r a]

/-- C7 amended: for a pixel touched by more distinct tracks than
`MAX_TRACKS_PER_PIXEL`, the excess tracks are dropped from the track-pixel
map without error (the row never grows past its fixed capacity), and the
slot sums still reproduce the total per-pixel signal; but the excess
contributions are not dropped from the per-track accumulation: for any
track absent from the pixel's row the slot scan defaults to `0`, so its
contribution is added to per-track slot 0 (misattributed), affecting that
in-capacity slot. -/
theorem excess_track_misattributed (S P T : ℕ) (signals : ℕ → ℕ → ℕ → ℚ)
    (pim : ℕ → ℕ → ℤ) (track_starts : ℕ → ℚ) (ts : ℚ) (tpm : ℕ → ℕ → ℤ)
    (p t u : ℕ) (upix : ℤ) (Sm Pm : ℕ) (pixels : ℕ → ℕ → ℤ)
    (hu : ∀ i, i < MAX_TRACKS_PER_PIXEL → tpm p i ≠ (u : ℤ)) :
    slotOf (tpm p) u = 0 ∧
      (get_track_pixel_map_row upix Sm Pm pixels).length = MAX_TRACKS_PER_PIXEL ∧
      ∑ c ∈ Finset.range MAX_TRACKS_PER_PIXEL,
          pixels_tracks_signals S P T signals pim track_starts ts tpm p t c =
        pixels_signals S P T signals pim track_starts ts p t := by
  refine ⟨?_, ?_, sum_slots_eq_total S P T signals pim track_starts ts tpm p t⟩
  · unfold slotOf
    split
    · rfl
    · rw [List.find?_eq_none.mpr]
      intro i hi
      simp only [beq_iff_eq]
      exact hu i (List.mem_range.mp hi)
  · unfold get_track_pixel_map_row
    rw [foldl_length_invariant _ (fun r a => foldl_length_invariant _
        (fun r2 b => by split <;> simp [insert_track_length]) _ r) _ _]
    exact List.length_replicate _ _

/-- Witness for C7's amended statement: an empty row (all `-1`), from which
track `0` is absent. -/
theorem excess_track_misattributed_witness :
    slotOf ((fun (_ _ : ℕ) => (-1 : ℤ)) 0) 0 = 0 ∧
      (get_track_pixel_map_row 0 1 1 (fun _ _ => 1)).length = MAX_TRACKS_PER_PIXEL ∧
      ∑ c ∈ Finset.range MAX_TRACKS_PER_PIXEL,
          pixels_tracks_signals 1 1 1 (fun _ _ _ => 1) (fun _ _ => 0) (fun _ => 0) 1
            (fun _ _ => -1) 0 0 c =
        pixels_signals 1 1 1 (fun _ _ _ => 1) (fun _ _ => 0) (fun _ => 0) 1 0 0 :=
  excess_track_misattributed 1 1 1 (fun _ _ _ => 1) (fun _ _ => 0) (fun _ => 0) 1
    (fun _ _ => -1) 0 0 0 0 1 1 (fun _ _ => 1) (by decide)

/-- Source constant `fee.MAX_ADC_VALUES` (fee.py line 23). -/
def MAX_ADC_VALUES : ℕ := 10

/-- Source constant `fee.CLOCK_CYCLE` in microseconds (fee.py line 33). -/
def CLOCK_CYCLE : ℚ := 1/10

/-- Source constant `fee.ADC_HOLD_DELAY` in clock cycles (fee.py line 27). -/
def ADC_HOLD_DELAY : ℚ := 15

/-- Source constant `fee.ADC_BUSY_DELAY` in clock cycles (fee.py line 29). -/
def ADC_BUSY_DELAY : ℚ := 8

/-- Source constant `fee.RESET_CYCLES` (fee.py line 31). -/
def RESET_CYCLES : ℚ := 1

/-- Source constant `fee.RESET_NOISE_CHARGE` in electrons (fee.py line 47). -/
def RESET_NOISE_CHARGE : ℚ := 900

/-- Source constant `fee.UNCORRELATED_NOISE_CHARGE` in electrons (fee.py
line 49). -/
def UNCORRELATED_NOISE_CHARGE : ℚ := 500

/-- Source constant `fee.DISCRIMINATOR_NOISE` in electrons (fee.py line 51). -/
def DISCRIMINATOR_NOISE : ℚ := 650

/-- Hold-window length in ticks (fee.py line 319):
`round((3·CLOCK_CYCLE + ADC_HOLD_DELAY·CLOCK_CYCLE)/TIME_SAMPLING)`. -/
def adcInterval (ts : ℚ) : ℕ :=
  (pyround ((3 * CLOCK_CYCLE + ADC_HOLD_DELAY * CLOCK_CYCLE) / ts)).toNat

/-- Tick advance after a discarded (false) trigger (fee.py line 347):
`round(CLOCK_CYCLE / TIME_SAMPLING)`. -/
def adcFalseReset (ts : ℚ) : ℕ :=
  (pyround (CLOCK_CYCLE / ts)).toNat

/-- Tick advance after an emitted sample (fee.py line 367):
`round(RESET_CYCLES · CLOCK_CYCLE / TIME_SAMPLING)`. -/
def adcReset (ts : ℚ) : ℕ :=
  (pyround (RESET_CYCLES * CLOCK_CYCLE / ts)).toNat

/-- Busy countdown started after an emitted sample (fee.py line 369):
`round(ADC_BUSY_DELAY · CLOCK_CYCLE / TIME_SAMPLING)`. -/
def adcBusy (ts : ℚ) : ℕ :=
  (pyround (ADC_BUSY_DELAY * CLOCK_CYCLE / ts)).toNat

/-- One emitted ADC sample of `fee.get_adc_values`: the integrated charge
written to `adc_list`, the timestamp written to `adc_ticks_list`, and the
normalized per-track fraction row of `current_fractions`. -/
structure AdcSample where
  adc : ℚ
  tick : ℚ
  fracs : List ℚ
  deriving DecidableEq

/-- Per-pixel inputs of the CUDA kernel `fee.get_adc_values` (fee.py lines
246-377): the pixel's accumulated waveform `curre`, the per-track waveforms
(`tracks ic itrk`, with `ntracks` slots), the absolute time ticks, the
pixel's discriminator threshold, the sampling period `ts`, the time padding
added to timestamps, the stream of unit-Gaussian noise draws (the kernel
draws them sequentially from its RNG state), and the electron charge. -/
structure AdcConfig where
  curre : List ℚ
  tracks : ℕ → ℕ → ℚ
  ntracks : ℕ
  timeTicks : ℕ → ℚ
  threshold : ℚ
  ts : ℚ
  padding : ℚ
  noise : ℕ → ℚ
  eCharge : ℚ

/-- Mutable state of one pixel's self-trigger loop in `fee.get_adc_values`:
tick pointer `ic`, busy countdown, `last_reset`, integrated charge `q_sum`,
the current (not yet emitted) per-track fraction row, the index of the next
noise draw, and the samples emitted so far (`iadc` is their number). -/
structure AdcState where
  ic : ℕ
  busy : ℕ
  lastReset : ℕ
  qSum : ℚ
  frac : ℕ → ℚ
  ni : ℕ
  samples : List AdcSample

/-- One iteration of the `while` loop of `fee.get_adc_values` (fee.py lines
287-376), with `BUFFER_RISETIME = 0` as in the source (fee.py line 37 —
the `BUFFER_RISETIME > 0` convolution branch is statically dead).  Returns
`none` when the loop exits: either the loop condition
`ic < len(curre) or adc_busy > 0` fails, or `iadc ≥ MAX_ADC_VALUES` hits the
capacity `break` (which in the source merely prints a warning).  The inner
integration `while` (lines 324-341) is expressed by the closed list of the
ticks it processes and the final tick pointer
`max(ic+1, min(integrate_end+1, n))`. -/
def adcStepF (cfg : AdcConfig) (maxAdc : ℕ) (st : AdcState) : Option AdcState :=
  let n := cfg.curre.length
  if st.ic < n ∨ 0 < st.busy then
    if maxAdc ≤ st.samples.length then none
    else
      let q := if st.ic < n then cfg.curre.getD st.ic 0 * cfg.ts else 0
      let frac1 : ℕ → ℚ := fun j =>
        if st.ic < n then st.frac j + cfg.tracks st.ic j * cfg.ts else st.frac j
      let qSum1 := st.qSum + q
      let qNoise := cfg.noise st.ni * UNCORRELATED_NOISE_CHARGE * cfg.eCharge
      let discNoise := cfg.noise (st.ni + 1) * DISCRIMINATOR_NOISE * cfg.eCharge
      let busy1 := st.busy - 1
      if cfg.threshold + discNoise ≤ qSum1 + qNoise ∧ busy1 = 0 then
        let crossing := st.ic
        let integrateEnd := st.ic + adcInterval cfg.ts
        let ic2 := max (st.ic + 1) (min (integrateEnd + 1) n)
        let ticks := List.range' (st.ic + 1) (ic2 - (st.ic + 1))
        let qSum2 := qSum1 + (ticks.map (fun j => cfg.curre.getD j 0 * cfg.ts)).sum
        let frac2 : ℕ → ℚ := fun k =>
          frac1 k + (ticks.map (fun j => cfg.tracks j k * cfg.ts)).sum
        let adc := qSum2 + cfg.noise (st.ni + 2) * UNCORRELATED_NOISE_CHARGE * cfg.eCharge
        let discNoise2 := cfg.noise (st.ni + 3) * DISCRIMINATOR_NOISE * cfg.eCharge
        if adc < cfg.threshold + discNoise2 then
          let ic3 := ic2 + adcFalseReset cfg.ts
          some ⟨ic3, busy1, ic3,
            cfg.noise (st.ni + 4) * UNCORRELATED_NOISE_CHARGE * cfg.eCharge,
            fun _ => 0, st.ni + 5, st.samples⟩
        else
          let v := (List.range cfg.ntracks).map frac2
          let sample : AdcSample :=
            ⟨adc, cfg.timeTicks crossing + cfg.padding + 2, v.map (fun x => x / v.sum)⟩
          let ic3 := ic2 + adcReset cfg.ts
          some ⟨ic3, adcBusy cfg.ts, ic3,
            cfg.noise (st.ni + 4) * RESET_NOISE_CHARGE * cfg.eCharge,
            fun _ => 0, st.ni + 5, st.samples ++ [sample]⟩
      else
        some ⟨st.ic + 1, busy1, st.lastReset, qSum1, frac1, st.ni + 2, st.samples⟩
  else none

/-- Fuel-indexed iteration of `adcStepF`; with exhausted fuel it stops with
the samples emitted so far.  The fuel supplied by `adcRun` exceeds the
iteration count of every terminating run used below, and all general
theorems hold for every fuel value. -/
def adcLoop (cfg : AdcConfig) (maxAdc : ℕ) : ℕ → AdcState → List AdcSample
  | 0, st => st.samples
  | fuel + 1, st =>
    match adcStepF cfg maxAdc st with
    | none => st.samples
    | some st' => adcLoop cfg maxAdc fuel st'

/-- Initial state of `fee.get_adc_values` (fee.py lines 281-285): the first
noise draw seeds `q_sum` with reset noise. -/
def adcInit (cfg : AdcConfig) : AdcState :=
  ⟨0, 0, 0, cfg.noise 0 * RESET_NOISE_CHARGE * cfg.eCharge, fun _ => 0, 1, []⟩

/-- Generous fuel bound for `adcLoop`. -/
def adcFuel (cfg : AdcConfig) (maxAdc : ℕ) : ℕ :=
  (maxAdc + 1) * (cfg.curre.length + adcBusy cfg.ts + adcInterval cfg.ts +
    adcReset cfg.ts + adcFalseReset cfg.ts + 3) + 1

/-- The self-trigger loop of `fee.get_adc_values` for one pixel, with the
sample capacity as a parameter. -/
def adcRun (cfg : AdcConfig) (maxAdc : ℕ) : List AdcSample :=
  adcLoop cfg maxAdc (adcFuel cfg maxAdc) (adcInit cfg)

/-- Embedding of `fee.get_adc_values` for one pixel, with the source's
capacity `MAX_ADC_VALUES`. -/
def get_adc_values (cfg : AdcConfig) : List AdcSample :=
  adcRun cfg MAX_ADC_VALUES

/-- Dividing every element of a list by a constant divides its sum. -/
lemma list_sum_map_div (l : List ℚ) (c : ℚ) :
    (l.map (fun x => x / c)).sum = l.sum / c := by
  induction l with
  | nil => simp
  | cons a l ih => simp [ih, add_div]

/-- Dividing every element of a rational list by zero yields the all-zero
list (the exact-model counterpart of float NaN). -/
lemma list_map_div_zero (l : List ℚ) :
    l.map (fun x => x / (0 : ℚ)) = List.replicate l.length 0 := by
  induction l with
  | nil => rfl
  | cons a l ih => simp [ih, List.replicate_succ]

/-- How one loop iteration changes the emitted-samples list: it is either
unchanged, or — only when strictly below capacity — extended by exactly one
sample whose fraction list is some `ntracks`-length vector divided
entrywise by its own sum (fee.py lines 355-362). -/
lemma adcStepF_samples (cfg : AdcConfig) (maxAdc : ℕ) (st st' : AdcState)
    (h : adcStepF cfg maxAdc st = some st') :
    st'.samples = st.samples ∨
      (st.samples.length < maxAdc ∧ ∃ (a : ℚ) (t : ℚ) (v : List ℚ),
        v.length = cfg.ntracks ∧
        st'.samples = st.samples ++ [⟨a, t, v.map (fun x => x / v.sum)⟩]) := by
  simp only [adcStepF] at h
  split_ifs at h
  all_goals injection h with h'
  all_goals subst h'
  all_goals
    first
    | exact Or.inl rfl
    | (right
       refine ⟨?_, _, _, _, ?_, rfl⟩
       · omega
       · simp)

/-- Invariants preserved by every loop iteration are carried to the final
state whose samples `adcLoop` returns. -/
lemma adcLoop_reaches (cfg : AdcConfig) (maxAdc : ℕ) (P : AdcState → Prop)
    (hstep : ∀ st st', adcStepF cfg maxAdc st = some st' → P st → P st') :
    ∀ (fuel : ℕ) (st : AdcState), P st →
      ∃ stf, adcLoop cfg maxAdc fuel st = stf.samples ∧ P stf := by
  intro fuel
  induction fuel with
  | zero => exact fun st h => ⟨st, rfl, h⟩
  | succ fuel ih =>
    intro st h
    cases heq : adcStepF cfg maxAdc st with
    | none => exact ⟨st, by simp [adcLoop, heq], h⟩
    | some st' =>
      obtain ⟨stf, hval, hP⟩ := ih st' (hstep st st' heq h)
      exact ⟨stf, by simp [adcLoop, heq, hval], hP⟩

/-- C2 amended: every sample emitted by `get_adc_values` carries the
accumulated per-track vector divided entrywise by its own sum (fee.py lines
355-360), so its fractions sum to `1` — except when that sum is zero, in
which case the divisions are by zero and the emitted fraction list is
all-zero in the exact model (NaN in the float code) and does not sum to 1. -/
theorem adc_fractions_normalized (cfg : AdcConfig) (s : AdcSample)
    (hs : s ∈ get_adc_values cfg) :
    s.fracs.sum = 1 ∨ s.fracs = List.replicate cfg.ntracks 0 := by
  classical
  have hstep : ∀ st st', adcStepF cfg MAX_ADC_VALUES st = some st' →
      (∀ x ∈ st.samples, x.fracs.sum = 1 ∨ x.fracs = List.replicate cfg.ntracks 0) →
      (∀ x ∈ st'.samples, x.fracs.sum = 1 ∨ x.fracs = List.replicate cfg.ntracks 0) := by
    intro st st' heq hp x hx
    rcases adcStepF_samples cfg MAX_ADC_VALUES st st' heq with hsame | ⟨-, a, t, v, hlen, happ⟩
    · exact hp x (hsame ▸ hx)
    · rw [happ] at hx
      rcases List.mem_append.mp hx with hold | hnew
      · exact hp x hold
      · have hxeq : x = ⟨a, t, v.map (fun y => y / v.sum)⟩ := by simpa using hnew
        subst hxeq
        by_cases hv : v.sum = 0
        · right
          dsimp only
          rw [hv, list_map_div_zero, hlen]
        · left
          dsimp only
          rw [list_sum_map_div, div_self hv]
  obtain ⟨stf, hval, hPf⟩ := adcLoop_reaches cfg MAX_ADC_VALUES
    (fun st => ∀ x ∈ st.samples, x.fracs.sum = 1 ∨ x.fracs = List.replicate cfg.ntracks 0)
    hstep (adcFuel cfg MAX_ADC_VALUES) (adcInit cfg)
    (by intro x hx; simp [adcInit] at hx)
  rw [get_adc_values, adcRun, hval] at hs
  exact hPf s hs

/-- Input for the C2 counterexample: a one-tick all-zero waveform with a
threshold of `0` and no noise.  The discriminator fires on the zero charge,
the HOLD re-check passes (`adc = 0` is not below threshold), and a sample
is emitted whose accumulated per-track vector sums to zero. -/
def adcCfgNoSignal : AdcConfig := ⟨[0], fun _ _ => 0, 1, fun _ => 0, 0, 10, 0, fun _ => 0, 1⟩

/-- Input for the C2 witness and further scenarios: a one-tick unit pulse
over threshold with a single contributing track and no noise. -/
def adcCfgPulse : AdcConfig := ⟨[1], fun _ _ => 1, 1, fun _ => 0, 5, 10, 0, fun _ => 0, 1⟩

/-- C2 counterexample: on `adcCfgNoSignal` the HOLD-to-emit path emits one
sample whose per-track fraction vector is `[0]` — the division of the
all-zero accumulated vector by its own zero sum — so the emitted fractions
sum to `0`, not `1`, refuting the claim that every emitted sample's
fractions sum to 1. -/
theorem adc_fractions_sum_zero_cex :
    get_adc_values adcCfgNoSignal = [⟨0, 2, [0]⟩] ∧
      (AdcSample.mk 0 2 [0]).fracs.sum ≠ 1 := by
  constructor
  · norm_num [get_adc_values, adcRun, adcFuel, adcInit, adcLoop, adcStepF, adcInterval,
      adcFalseReset, adcReset, adcBusy, pyround, MAX_ADC_VALUES, CLOCK_CYCLE, ADC_HOLD_DELAY,
      ADC_BUSY_DELAY, RESET_CYCLES, RESET_NOISE_CHARGE, UNCORRELATED_NOISE_CHARGE,
      DISCRIMINATOR_NOISE, adcCfgNoSignal, List.range', List.getD_cons_zero, List.range_succ]
  · norm_num

/-- Witness for C2's amended statement: on `adcCfgPulse` the emitted sample
is `⟨10, 2, [1]⟩` and its fractions sum to `1`. -/
theorem adc_fractions_normalized_witness :
    (AdcSample.mk 10 2 [1]) ∈ get_adc_values adcCfgPulse ∧
      ((AdcSample.mk 10 2 [1]).fracs.sum = 1 ∨
        (AdcSample.mk 10 2 [1]).fracs = List.replicate adcCfgPulse.ntracks 0) := by
  have hmem : (AdcSample.mk 10 2 [1]) ∈ get_adc_values adcCfgPulse := by
    norm_num [get_adc_values, adcRun, adcFuel, adcInit, adcLoop, adcStepF, adcInterval,
      adcFalseReset, adcReset, adcBusy, pyround, MAX_ADC_VALUES, CLOCK_CYCLE, ADC_HOLD_DELAY,
      ADC_BUSY_DELAY, RESET_CYCLES, RESET_NOISE_CHARGE, UNCORRELATED_NOISE_CHARGE,
      DISCRIMINATOR_NOISE, adcCfgPulse, List.range', List.getD_cons_zero, List.range_succ]
  exact ⟨hmem, adc_fractions_normalized adcCfgPulse _ hmem⟩

/-- Input for the C3 counterexample: eleven consecutive over-threshold
ticks, each of which produces one ADC sample under the source's timing
constants with `TIME_SAMPLING = 10`. -/
def adcCfgEleven : AdcConfig :=
  ⟨[1, 1, 1, 1, 1, 1, 1, 1, 1, 1, 1], fun _ _ => 1, 1, fun _ => 0, 5, 10, 0, fun _ => 0, 1⟩

/-- C3 counterexample: on `adcCfgEleven` the run would produce 11 samples
(as the run with capacity 11 shows), but `get_adc_values` stops at the
capacity `break` after `MAX_ADC_VALUES = 10` samples and returns the
truncated prefix through the very same interface as a legitimate 10-sample
run — the only surfacing in the source is a `print` to stdout, so the
caller receives a silently truncated output rather than a fatal error. -/
theorem adc_truncation_cex :
    (get_adc_values adcCfgEleven).length = MAX_ADC_VALUES ∧
      (adcRun adcCfgEleven (MAX_ADC_VALUES + 1)).length = MAX_ADC_VALUES + 1 ∧
      get_adc_values adcCfgEleven = (adcRun adcCfgEleven (MAX_ADC_VALUES + 1)).take
        MAX_ADC_VALUES := by
  norm_num [get_adc_values, adcRun, adcFuel, adcInit, adcLoop, adcStepF, adcInterval,
    adcFalseReset, adcReset, adcBusy, pyround, MAX_ADC_VALUES, CLOCK_CYCLE, ADC_HOLD_DELAY,
    ADC_BUSY_DELAY, RESET_CYCLES, RESET_NOISE_CHARGE, UNCORRELATED_NOISE_CHARGE,
    DISCRIMINATOR_NOISE, adcCfgEleven, List.range', List.getD_cons_zero, List.getD_cons_succ,
    List.range_succ]

/-- C3 amended: exceeding the per-pixel sample capacity stops the pixel's
loop at the `break` (after a printed warning): at most `MAX_ADC_VALUES`
samples are ever returned for a pixel, the excess is dropped, and no error
value reaches the caller. -/
theorem adc_samples_length_le_max (cfg : AdcConfig) :
    (get_adc_values cfg).length ≤ MAX_ADC_VALUES := by
  have hstep : ∀ st st', adcStepF cfg MAX_ADC_VALUES st = some st' →
      st.samples.length ≤ MAX_ADC_VALUES → st'.samples.length ≤ MAX_ADC_VALUES := by
    intro st st' heq hp
    rcases adcStepF_samples cfg MAX_ADC_VALUES st st' heq with hsame | ⟨hlt, a, t, v, -, happ⟩
    · rw [hsame]; exact hp
    · rw [happ]
      simp only [List.length_append, List.length_cons, List.length_nil]
      omega
  obtain ⟨stf, hval, hPf⟩ := adcLoop_reaches cfg MAX_ADC_VALUES
    (fun st => st.samples.length ≤ MAX_ADC_VALUES) hstep
    (adcFuel cfg MAX_ADC_VALUES) (adcInit cfg) (by simp [adcInit])
  rw [get_adc_values, adcRun, hval]
  exact hPf

end LarndSim
